import Mathlib

set_option maxRecDepth 100000

/-!
Shallow embedding of the request-signing subsystem of the PolishAPI Rust
client (src/crypto/jws.rs, src/client.rs, src/utils/validation.rs) together
with proofs settling the frozen claims about it.

Conventions of the embedding:
* Rust `String`/`&str` values are Lean `String`s; where Rust works on bytes
  or splits on characters we pass through `String.data` (the scalar-value
  sequence, exactly what Rust's `str::chars` yields) and an explicit UTF-8
  encoder (`utf8Bytes`, matching `str::as_bytes`).
* Bytes are `UInt8`, byte strings are `List UInt8`.
* Fallible Rust functions returning `Result<T, PolishApiError>` become
  `Except PolishApiError T`.
* The external `ring` RSA primitive is modelled by a key-pair record carrying
  the modulus length and the deterministic RSASSA-PKCS1-v1_5/SHA-256 raw
  signature function (RFC 8017 section 8.2.1 is deterministic; ring consumes
  its random source only for blinding, which does not change the output).
* A Rust panic is modelled as `Option.none` at the outermost level of the
  function that can panic.
-/

namespace PolishApi

/-- UTF-8 encoding of one Unicode scalar value, as `str::as_bytes` lays a
`char` out in memory. -/
def utf8EncodeChar (c : Char) : List UInt8 :=
  let n := c.toNat
  if n < 128 then [UInt8.ofNat n]
  else if n < 2048 then [UInt8.ofNat (192 + n / 64), UInt8.ofNat (128 + n % 64)]
  else if n < 65536 then
    [UInt8.ofNat (224 + n / 4096), UInt8.ofNat (128 + n / 64 % 64), UInt8.ofNat (128 + n % 64)]
  else
    [UInt8.ofNat (240 + n / 262144), UInt8.ofNat (128 + n / 4096 % 64),
      UInt8.ofNat (128 + n / 64 % 64), UInt8.ofNat (128 + n % 64)]

/-- The byte sequence of a string, Rust's `str::as_bytes`; `str::len` is its
length. -/
def utf8Bytes (s : String) : List UInt8 :=
  (s.data.map utf8EncodeChar).flatten

/-- Alphabet of the `base64` crate's `STANDARD` engine (the `BASE64` engine
imported at the top of src/crypto/jws.rs): `A-Z a-z 0-9 + /` with `=`
padding. -/
def b64Table : List Char :=
  "ABCDEFGHIJKLMNOPQRSTUVWXYZabcdefghijklmnopqrstuvwxyz0123456789+/".data

/-- Character for a six-bit value (values above 63 do not occur). -/
def b64Char (n : Nat) : Char := b64Table.getD n 'A'

/-- Inverse alphabet lookup; `none` for a character outside the standard
alphabet (in particular for `=` and for every base64url-only character). -/
def b64Val (c : Char) : Option Nat := b64Table.findIdx? (fun x => x == c)

/-- Standard base64 encoding with `=` padding, as `BASE64.encode` produces it
(RFC 4648 section 4). -/
def b64EncodeList : List UInt8 → List Char
  | [] => []
  | [b0] => [b64Char (b0.toNat / 4), b64Char (b0.toNat % 4 * 16), '=', '=']
  | [b0, b1] =>
      [b64Char (b0.toNat / 4), b64Char (b0.toNat % 4 * 16 + b1.toNat / 16),
        b64Char (b1.toNat % 16 * 4), '=']
  | b0 :: b1 :: b2 :: rest =>
      b64Char (b0.toNat / 4) :: b64Char (b0.toNat % 4 * 16 + b1.toNat / 16) ::
        b64Char (b1.toNat % 16 * 4 + b2.toNat / 64) :: b64Char (b2.toNat % 64) ::
        b64EncodeList rest

/-- String wrapper over `b64EncodeList`. -/
def b64EncodeStd (bs : List UInt8) : String := ⟨b64EncodeList bs⟩

/-- Strict standard base64 decoding as `BASE64.decode` performs it: the
`STANDARD` engine requires canonical `=` padding, rejects characters outside
the alphabet, rejects padding anywhere but the final quantum and rejects
non-zero trailing bits (`decode_allow_trailing_bits` is off by default). -/
def b64DecodeList : List Char → Option (List UInt8)
  | [] => some []
  | c0 :: c1 :: c2 :: c3 :: rest =>
      match b64Val c0, b64Val c1 with
      | some v0, some v1 =>
        if c2 = '=' then
          if c3 = '=' ∧ rest = [] then
            if v1 % 16 = 0 then some [UInt8.ofNat (v0 * 4 + v1 / 16)] else none
          else none
        else
          match b64Val c2 with
          | some v2 =>
            if c3 = '=' then
              if rest = [] then
                if v2 % 4 = 0 then
                  some [UInt8.ofNat (v0 * 4 + v1 / 16), UInt8.ofNat (v1 % 16 * 16 + v2 / 4)]
                else none
              else none
            else
              match b64Val c3 with
              | some v3 =>
                (b64DecodeList rest).map (fun bs =>
                  UInt8.ofNat (v0 * 4 + v1 / 16) :: UInt8.ofNat (v1 % 16 * 16 + v2 / 4) ::
                    UInt8.ofNat (v2 % 4 * 64 + v3) :: bs)
              | none => none
          | none => none
      | _, _ => none
  | _ => none

/-- String wrapper over `b64DecodeList`. -/
def b64DecodeStd (s : String) : Option (List UInt8) := b64DecodeList s.data

/-- Lowercase hexadecimal digit, serde_json's `HEX_DIGITS` table. -/
def hexDigitLower (n : Nat) : Char := "0123456789abcdef".data.getD n '0'

/-- JSON string escaping of one character exactly as serde_json's serializer
emits it: `"` and `\` get a backslash, the five control characters with short
forms use them, the remaining control characters become `\u00xy` with
lowercase hex, everything else (including all non-ASCII) is written raw. -/
def jsonEscapeChar (c : Char) : List Char :=
  if c = '"' then ['\\', '"']
  else if c = '\\' then ['\\', '\\']
  else if c = Char.ofNat 8 then ['\\', 'b']
  else if c = '\t' then ['\\', 't']
  else if c = '\n' then ['\\', 'n']
  else if c = Char.ofNat 12 then ['\\', 'f']
  else if c = '\r' then ['\\', 'r']
  else if c.toNat < 32 then
    ['\\', 'u', '0', '0', hexDigitLower (c.toNat / 16), hexDigitLower (c.toNat % 16)]
  else [c]

/-- JSON escaping of a whole string body. -/
def jsonEscapeList (l : List Char) : List Char := (l.map jsonEscapeChar).flatten

/-- Modelled from the spec: the serialized protected header produced in
`JwsSigner::sign` by `serde_json::to_string` of the `json!` object
`alg/kid/b64/crit`. The field order serde_json emits depends on this crate's
`preserve_order` feature selection in Cargo.toml, which is not among the
sources; the spec documents the fixed order `alg, kid, b64, crit`, which is
what this definition emits. -/
def headerJson (kid : String) : String :=
  ⟨"\x7b\"alg\":\"RS256\",\"kid\":\"".data ++ jsonEscapeList kid.data ++
    "\",\"b64\":false,\"crit\":[\"b64\"]\x7d".data⟩

/-- Model of `ring::signature::RsaKeyPair`: the byte size of the modulus
(`public().modulus_len()`) and the deterministic raw
RSASSA-PKCS1-v1_5/SHA-256 signature function of the private key. -/
structure RsaKeyPair where
  modulus_len : Nat
  rsaPkcs1Sha256 : List UInt8 → List UInt8

/-- Model of `RsaKeyPair::sign` with the `RSA_PKCS1_SHA256` algorithm and a
random source. RSASSA-PKCS1-v1_5 is a deterministic signature scheme
(RFC 8017 section 8.2); ring uses the supplied random source only for
blinding, which does not change the produced signature, so the model ignores
the `rng` argument. -/
def ringSign (kp : RsaKeyPair) (_rng : Nat) (msg : List UInt8) : List UInt8 :=
  kp.rsaPkcs1Sha256 msg

/-- In-place fill of a `&mut` byte buffer: the buffer keeps its allocated
length, its prefix is overwritten by the produced bytes. `ring` requires the
buffer handed to `sign` to have exactly `modulus_len` bytes and fills all of
them. -/
def fillBuffer (buf bytes : List UInt8) : List UInt8 :=
  (bytes ++ buf.drop bytes.length).take buf.length

/-- Subset of the `PolishApiError` enum (src/types/errors.rs) reachable in
the modelled fragment. The code interpolates the underlying library error
into some messages; the model keeps the fixed message prefix only. -/
inductive PolishApiError where
  | Crypto (msg : String)
  | Config (msg : String)
  | Validation (msg : String)
deriving DecidableEq

/-- JWS signer for request signing (struct `JwsSigner`). -/
structure JwsSigner where
  key_pair : RsaKeyPair
  key_id : String

/-- Base64 encoding of the serialized protected header, the `header_b64`
local of `JwsSigner::sign`. -/
def headerB64 (kid : String) : String := b64EncodeStd (utf8Bytes (headerJson kid))

/-- The `JwsSigner::sign` body with the per-call `SystemRandom::new()`
represented by an explicit `rng` seed. Serialization of the fixed header
cannot fail and the signing primitive model is total, so the `Result` wrapper
of the code carries no reachable error and is dropped. -/
def JwsSigner.signWithRng (s : JwsSigner) (rng : Nat) (payload : String) : String :=
  let header_b64 := headerB64 s.key_id
  let signing_input := header_b64 ++ "." ++ payload
  let signature :=
    fillBuffer (List.replicate s.key_pair.modulus_len 0)
      (ringSign s.key_pair rng (utf8Bytes signing_input))
  let signature_b64 := b64EncodeStd signature
  header_b64 ++ ".." ++ signature_b64

/-- Public entry point `JwsSigner::sign`: the code draws a fresh
`SystemRandom` per call; any seed stands in for it (see `C9` for
independence). -/
def JwsSigner.sign (s : JwsSigner) (payload : String) : String :=
  s.signWithRng 0 payload

/-- Splitting a character sequence at a separator, Rust's `str::split(char)`:
`n` separators yield `n + 1` (possibly empty) parts. -/
def splitChar (sep : Char) : List Char → List (List Char)
  | [] => [[]]
  | c :: cs =>
    if c = sep then [] :: splitChar sep cs
    else
      match splitChar sep cs with
      | [] => [[c]]
      | p :: ps => (c :: p) :: ps

/-- The `JwsSigner::verify` body: structural check on the dot-separated
segments, then base64 decoding of the signature segment, then the placeholder
result `Ok(true)` — the code performs no cryptographic check (its own comment
calls it a placeholder implementation). -/
def JwsSigner.verify (_s : JwsSigner) (jws _payload : String) :
    Except PolishApiError Bool :=
  let parts := splitChar '.' jws.data
  if parts.length ≠ 3 ∨ parts.getD 1 [] ≠ [] then
    .error (.Crypto "Invalid JWS format")
  else
    match b64DecodeList (parts.getD 2 []) with
    | none => .error (.Crypto "Invalid signature encoding")
    | some _signature => .ok true

/-- The `JwsSigner::new` constructor. `ring`'s DER key parser is an external
crate, passed in as `fromDer`; the code maps its failure to a `Crypto` error
with the fixed prefix `Invalid private key`. -/
def JwsSigner.new (fromDer : List UInt8 → Option RsaKeyPair)
    (private_key_der : List UInt8) (key_id : String) :
    Except PolishApiError JwsSigner :=
  match fromDer private_key_der with
  | none => .error (.Crypto "Invalid private key")
  | some kp => .ok ⟨kp, key_id⟩

/-- Strip one trailing carriage return, as `str::lines` does per line. -/
def stripCr (l : List Char) : List Char :=
  if l.getLast? = some '\r' then l.dropLast else l

/-- Rust's `str::lines`: split at `\n`; every part that was terminated by a
`\n` loses one trailing `\r`; the final part keeps any trailing `\r` (the
carriage return is only treated as part of a `\r\n` line ending) and is
dropped when empty (the final line ending is optional). -/
def rustLines (s : String) : List String :=
  let parts := splitChar '\n' s.data
  let init := parts.dropLast.map stripCr
  let last := parts.getLastD []
  (if last = [] then init else init ++ [last]).map fun l => ⟨l⟩

/-- Rust's `str::starts_with` on a string prefix. -/
def rustStartsWith (s pre : String) : Bool := pre.data.isPrefixOf s.data

/-- The line loop of `JwsSigner::pem_to_der`: a `-----BEGIN` line sets the
in-key flag and is skipped, the first `-----END` line breaks the loop,
every other line is collected while the flag is set. -/
def pemCollect : Bool → List String → List String
  | _, [] => []
  | in_key, l :: ls =>
    if rustStartsWith l "-----BEGIN" then pemCollect true ls
    else if rustStartsWith l "-----END" then []
    else if in_key then l :: pemCollect in_key ls
    else pemCollect in_key ls

/-- `JwsSigner::pem_to_der`: collect the body lines, join them and base64
decode; a decode failure becomes the `Invalid PEM encoding` crypto error. -/
def JwsSigner.pem_to_der (pem : String) : Except PolishApiError (List UInt8) :=
  let der_lines := pemCollect false (rustLines pem)
  let der_b64 : List Char := (der_lines.map String.data).flatten
  match b64DecodeList der_b64 with
  | none => .error (.Crypto "Invalid PEM encoding")
  | some bs => .ok bs

/-- `JwsSigner::from_pem`: PEM-to-DER conversion followed by `new`. -/
def JwsSigner.from_pem (fromDer : List UInt8 → Option RsaKeyPair)
    (private_key_pem : String) (key_id : String) :
    Except PolishApiError JwsSigner :=
  match JwsSigner.pem_to_der private_key_pem with
  | .error e => .error e
  | .ok der_bytes => JwsSigner.new fromDer der_bytes key_id

/-- The `PolishApiClient` state relevant to signing: the optional signer
(the transport fields play no part in `sign_payload`). -/
structure PolishApiClient where
  jws_signer : Option JwsSigner

/-- `PolishApiClient::sign_payload`: forwards to the configured signer or
fails with the configuration error. The signer's `sign` is total in the
model, so the forwarded result is always `Ok`. -/
def PolishApiClient.sign_payload (c : PolishApiClient) (payload : String) :
    Except PolishApiError String :=
  match c.jws_signer with
  | some signer => .ok (signer.sign payload)
  | none => .error (.Config "JWS signer not configured")

/-- Fragment of Unicode's `Alphabetic` property (Rust's
`char::is_alphabetic`) covering the code points exercised in this
development: ASCII letters, the Latin-1/Latin-Extended letters, and the CJK
Unified Ideographs block (all of which carry the property). -/
def rustIsAlphabetic (c : Char) : Bool :=
  ('A' ≤ c && c ≤ 'Z') || ('a' ≤ c && c ≤ 'z') ||
    (192 ≤ c.toNat && c.toNat ≤ 591 && c.toNat ≠ 215 && c.toNat ≠ 247) ||
    (19968 ≤ c.toNat && c.toNat ≤ 40959)

/-- Fragment of Unicode's `Nd`-based numeric property (Rust's
`char::is_numeric`) covering the code points exercised here: ASCII digits. -/
def rustIsNumeric (c : Char) : Bool := '0' ≤ c && c ≤ '9'

/-- Rust's `char::is_alphanumeric`. -/
def rustIsAlphanumeric (c : Char) : Bool := rustIsAlphabetic c || rustIsNumeric c

/-- Characters covered by the first `n` bytes of a string, Rust's byte-range
slice `&s[0..n]`; `none` models the panic raised when `n` exceeds the byte
length or falls inside a multi-byte character (not a char boundary). -/
def utf8SlicePrefix : List Char → Nat → Option (List Char)
  | _, 0 => some []
  | [], _ + 1 => none
  | c :: cs, n + 1 =>
    if (utf8EncodeChar c).length ≤ n + 1 then
      (utf8SlicePrefix cs (n + 1 - (utf8EncodeChar c).length)).map (c :: ·)
    else none

/-- `validate_iban` from src/utils/validation.rs. The outer `Option` models
panic freedom: `none` is the panic of the byte slice `&iban[0..2]` when byte
index 2 is not a character boundary. -/
def validate_iban (iban : String) : Option (Except PolishApiError Unit) :=
  if (utf8Bytes iban).length < 15 ∨ 34 < (utf8Bytes iban).length then
    some (.error (.Validation "IBAN length must be between 15 and 34 characters"))
  else if ¬ (iban.data.all rustIsAlphanumeric) then
    some (.error (.Validation "IBAN must contain only alphanumeric characters"))
  else
    match utf8SlicePrefix iban.data 2 with
    | none => none
    | some country_code =>
      if ¬ (country_code.all rustIsAlphabetic) then
        some (.error (.Validation "IBAN country code must be alphabetic"))
      else some (.ok ())

/-- Character class `[A-Za-z0-9_-]` of the spec's token pattern. -/
def isB64urlChar (c : Char) : Bool :=
  ('A' ≤ c && c ≤ 'Z') || ('a' ≤ c && c ≤ 'z') || ('0' ≤ c && c ≤ '9') ||
    c == '-' || c == '_'

/-- Decision procedure for the spec's pattern
`^[A-Za-z0-9_-]+\.\.[A-Za-z0-9_-]+$` (this definition follows the spec's
words, for comparison with the code's output): since the class excludes the
dot, a match is exactly a three-way dot split with empty middle and non-empty
base64url-only outer segments. -/
def matchesDetachedB64url (s : String) : Bool :=
  match splitChar '.' s.data with
  | [h, m, t] => m.isEmpty && !h.isEmpty && !t.isEmpty &&
      h.all isB64urlChar && t.all isB64urlChar
  | _ => false

/-- Concrete instantiation of the abstract RSA primitive, used only to
evaluate the signing pipeline on closed inputs; the claims settled with it do
not depend on the signature bytes the primitive returns. -/
def sampleKeyPair : RsaKeyPair := ⟨4, fun _ => [1, 2, 3, 4]⟩

/-- Signer over `sampleKeyPair` with the spec's concrete key id. -/
def sampleSigner : JwsSigner := ⟨sampleKeyPair, "test-key-1"⟩

/-! ## Helper lemmas about the embedding -/

theorem b64Val_b64Char : ∀ n, n < 64 → b64Val (b64Char n) = some n := by decide

theorem b64Char_lt_ne_dot : ∀ n, n < 64 → b64Char n ≠ '.' := by decide

theorem b64Char_lt_ne_pad : ∀ n, n < 64 → b64Char n ≠ '=' := by decide

theorem b64Char_ne_dot (n : Nat) : b64Char n ≠ '.' := by
  rcases Nat.lt_or_ge n 64 with h | h
  · exact b64Char_lt_ne_dot n h
  · unfold b64Char
    rw [List.getD_eq_default _ _ (by have : b64Table.length = 64 := rfl; omega)]
    decide

theorem u8_toNat_ofNat (n : Nat) : (UInt8.ofNat n).toNat = n % 256 := rfl

theorem b64_decode_encode : ∀ bs : List UInt8, b64DecodeList (b64EncodeList bs) = some bs
  | [] => rfl
  | [b0] => by
      have h0 := UInt8.toNat_lt b0
      simp only [b64EncodeList, b64DecodeList,
        b64Val_b64Char (b0.toNat / 4) (by omega),
        b64Val_b64Char (b0.toNat % 4 * 16) (by omega)]
      simp only [and_self, if_true]
      rw [if_pos (show b0.toNat % 4 * 16 % 16 = 0 by omega)]
      refine congrArg some (congrArg (fun b => [b]) ?_)
      apply UInt8.ext
      rw [u8_toNat_ofNat]
      omega
  | [b0, b1] => by
      have h0 := UInt8.toNat_lt b0
      have h1 := UInt8.toNat_lt b1
      simp only [b64EncodeList, b64DecodeList,
        b64Val_b64Char (b0.toNat / 4) (by omega),
        b64Val_b64Char (b0.toNat % 4 * 16 + b1.toNat / 16) (by omega)]
      rw [if_neg (b64Char_lt_ne_pad (b1.toNat % 16 * 4) (by omega))]
      simp only [b64Val_b64Char (b1.toNat % 16 * 4) (by omega)]
      simp only [and_self, if_true]
      rw [if_pos (show b1.toNat % 16 * 4 % 4 = 0 by omega)]
      refine congrArg some ?_
      refine congrArg₂ (fun a b => [a, b]) ?_ ?_ <;>
        (apply UInt8.ext; rw [u8_toNat_ofNat]; omega)
  | b0 :: b1 :: b2 :: rest => by
      have h0 := UInt8.toNat_lt b0
      have h1 := UInt8.toNat_lt b1
      have h2 := UInt8.toNat_lt b2
      simp only [b64EncodeList, b64DecodeList,
        b64Val_b64Char (b0.toNat / 4) (by omega),
        b64Val_b64Char (b0.toNat % 4 * 16 + b1.toNat / 16) (by omega)]
      rw [if_neg (b64Char_lt_ne_pad (b1.toNat % 16 * 4 + b2.toNat / 64) (by omega))]
      simp only [b64Val_b64Char (b1.toNat % 16 * 4 + b2.toNat / 64) (by omega)]
      rw [if_neg (b64Char_lt_ne_pad (b2.toNat % 64) (by omega))]
      simp only [b64Val_b64Char (b2.toNat % 64) (by omega)]
      rw [b64_decode_encode rest]
      simp only [Option.map_some']
      refine congrArg some ?_
      refine congrArg₂ (fun a t => a :: t) ?_ (congrArg₂ (fun a t => a :: t) ?_
        (congrArg₂ (fun a t => a :: t) ?_ rfl)) <;>
        (apply UInt8.ext; rw [u8_toNat_ofNat]; omega)

theorem b64EncodeList_not_dot : ∀ bs : List UInt8, '.' ∉ b64EncodeList bs
  | [] => by simp [b64EncodeList]
  | [b0] => by
      simp only [b64EncodeList, List.mem_cons, List.not_mem_nil, or_false]
      rintro (h | h | h | h) <;> first
        | exact b64Char_ne_dot _ h.symm
        | exact absurd h (by decide)
  | [b0, b1] => by
      simp only [b64EncodeList, List.mem_cons, List.not_mem_nil, or_false]
      rintro (h | h | h | h) <;> first
        | exact b64Char_ne_dot _ h.symm
        | exact absurd h (by decide)
  | b0 :: b1 :: b2 :: rest => by
      simp only [b64EncodeList, List.mem_cons]
      rintro (h | h | h | h | h) <;> first
        | exact b64Char_ne_dot _ h.symm
        | exact b64EncodeList_not_dot rest h

theorem splitChar_ne_nil (sep : Char) : ∀ l : List Char, splitChar sep l ≠ []
  | [] => by simp [splitChar]
  | c :: cs => by
      unfold splitChar
      by_cases h : c = sep
      · simp [h]
      · rw [if_neg h]
        rcases hs : splitChar sep cs with _ | ⟨p, ps⟩ <;> simp

theorem splitChar_length (sep : Char) :
    ∀ l : List Char, (splitChar sep l).length = l.count sep + 1
  | [] => by simp [splitChar]
  | c :: cs => by
      unfold splitChar
      by_cases h : c = sep
      · rw [if_pos h]
        have ih := splitChar_length sep cs
        simp [List.count_cons, h, ih]
      · rw [if_neg h]
        rcases hs : splitChar sep cs with _ | ⟨p, ps⟩
        · exact absurd hs (splitChar_ne_nil sep cs)
        · have ih := splitChar_length sep cs
          rw [hs] at ih
          simp only [List.length_cons] at ih
          simp [List.count_cons, h]
          omega

theorem splitChar_sep_cons (sep : Char) (l2 : List Char) :
    ∀ l1 : List Char, sep ∉ l1 → splitChar sep (l1 ++ sep :: l2) = l1 :: splitChar sep l2
  | [], _ => by
      simp [splitChar]
  | c :: cs, h => by
      have hc : c ≠ sep := fun e => h (by simp [e])
      have hcs : sep ∉ cs := fun m => h (by simp [m])
      show splitChar sep (c :: (cs ++ sep :: l2)) = _
      conv_lhs => unfold splitChar
      rw [if_neg hc, splitChar_sep_cons sep l2 cs hcs]

theorem splitChar_not_mem (sep : Char) : ∀ l : List Char, sep ∉ l → splitChar sep l = [l]
  | [], _ => rfl
  | c :: cs, h => by
      have hc : c ≠ sep := fun e => h (by simp [e])
      have hcs : sep ∉ cs := fun m => h (by simp [m])
      unfold splitChar
      rw [if_neg hc, splitChar_not_mem sep cs hcs]

theorem headerB64_data (kid : String) :
    (headerB64 kid).data = b64EncodeList (utf8Bytes (headerJson kid)) := rfl

theorem signWithRng_data (s : JwsSigner) (rng : Nat) (payload : String) :
    (s.signWithRng rng payload).data =
      (headerB64 s.key_id).data ++ '.' :: '.' ::
        (b64EncodeStd (fillBuffer (List.replicate s.key_pair.modulus_len 0)
          (ringSign s.key_pair rng
            (utf8Bytes (headerB64 s.key_id ++ "." ++ payload))))).data := by
  show (headerB64 s.key_id ++ ".." ++ _).data = _
  rw [String.data_append, String.data_append]
  simp [List.append_assoc]

theorem splitChar_signWithRng (s : JwsSigner) (rng : Nat) (payload : String) :
    splitChar '.' (s.signWithRng rng payload).data =
      [(headerB64 s.key_id).data, [],
        (b64EncodeStd (fillBuffer (List.replicate s.key_pair.modulus_len 0)
          (ringSign s.key_pair rng
            (utf8Bytes (headerB64 s.key_id ++ "." ++ payload))))).data] := by
  rw [signWithRng_data]
  have h1 : '.' ∉ (headerB64 s.key_id).data := by
    rw [headerB64_data]; exact b64EncodeList_not_dot _
  have h2 : '.' ∉ (b64EncodeStd (fillBuffer (List.replicate s.key_pair.modulus_len 0)
      (ringSign s.key_pair rng (utf8Bytes (headerB64 s.key_id ++ "." ++ payload))))).data :=
    b64EncodeList_not_dot _
  rw [splitChar_sep_cons '.' _ _ h1]
  unfold splitChar
  rw [if_pos rfl, splitChar_not_mem '.' _ h2]

theorem fillBuffer_length (buf bytes : List UInt8) :
    (fillBuffer buf bytes).length = buf.length := by
  simp only [fillBuffer, List.length_take, List.length_append, List.length_drop]
  omega

theorem begin_end_prefix_conflict (l : List Char)
    (h1 : "-----BEGIN".data.isPrefixOf l = true)
    (h2 : "-----END".data.isPrefixOf l = true) : False := by
  rw [List.isPrefixOf_iff_prefix] at h1 h2
  rcases List.prefix_or_prefix_of_prefix h1 h2 with h | h
  · exact absurd h (by decide)
  · exact absurd h (by decide)

theorem pemCollect_no_begin :
    ∀ ls : List String, (ls.all fun l => !(rustStartsWith l "-----BEGIN")) = true →
      pemCollect false ls = []
  | [], _ => rfl
  | l :: ls, h => by
      simp only [List.all_cons, Bool.and_eq_true, Bool.not_eq_true'] at h
      rcases h with ⟨h1, h2⟩
      unfold pemCollect
      rw [if_neg (by simp [h1])]
      by_cases he : rustStartsWith l "-----END"
      · rw [if_pos he]
      · rw [if_neg he]
        simpa using pemCollect_no_begin ls h2

theorem pemCollect_append_stops_at_end :
    ∀ (b : Bool) (ls1 ls2 : List String),
      (ls1.any fun l => rustStartsWith l "-----END") = true →
      pemCollect b (ls1 ++ ls2) = pemCollect b ls1
  | _, [], _, h => by simp at h
  | b, l :: t, ls2, h => by
      have hany : rustStartsWith l "-----END" = true ∨
          (t.any fun l => rustStartsWith l "-----END") = true := by
        simpa [List.any_cons] using h
      show pemCollect b (l :: (t ++ ls2)) = _
      unfold pemCollect
      by_cases hb : rustStartsWith l "-----BEGIN"
      · rw [if_pos hb, if_pos hb]
        have ht : (t.any fun l => rustStartsWith l "-----END") = true := by
          rcases hany with he | ht
          · exact (begin_end_prefix_conflict l.data hb he).elim
          · exact ht
        exact pemCollect_append_stops_at_end true t ls2 ht
      · rw [if_neg hb, if_neg hb]
        by_cases he : rustStartsWith l "-----END"
        · rw [if_pos he, if_pos he]
        · rw [if_neg he, if_neg he]
          have ht : (t.any fun l => rustStartsWith l "-----END") = true := by
            rcases hany with he2 | ht
            · exact absurd he2 he
            · exact ht
          cases b
          · simpa using pemCollect_append_stops_at_end false t ls2 ht
          · rw [if_pos rfl, if_pos rfl,
              pemCollect_append_stops_at_end true t ls2 ht]

/-! ## Claim theorems -/

/-- C1: for every payload, `JwsSigner::sign` builds the signing input as the
base64-encoded header, a single dot, then the payload verbatim (not
base64-encoded), hands that input to the RSASSA-PKCS1-v1_5/SHA-256 primitive
(`ringSign`, filling the modulus-length buffer), and returns
`header_b64 ++ ".." ++ signature_b64` — a token of exactly three
dot-separated segments whose middle segment is empty. -/
theorem sign_detached_structure (s : JwsSigner) (payload : String) :
    s.sign payload =
      b64EncodeStd (utf8Bytes (headerJson s.key_id)) ++ ".." ++
        b64EncodeStd (fillBuffer (List.replicate s.key_pair.modulus_len 0)
          (ringSign s.key_pair 0
            (utf8Bytes (b64EncodeStd (utf8Bytes (headerJson s.key_id)) ++ "." ++ payload)))) ∧
    (splitChar '.' (s.sign payload).data).length = 3 ∧
    (splitChar '.' (s.sign payload).data).getD 1 ['#'] = [] := by
  have hsp := splitChar_signWithRng s 0 payload
  refine ⟨rfl, ?_, ?_⟩
  · show (splitChar '.' (s.signWithRng 0 payload).data).length = 3
    rw [hsp]
    rfl
  · show (splitChar '.' (s.signWithRng 0 payload).data).getD 1 ['#'] = []
    rw [hsp]
    rfl

/-- C2: the code does not emit base64url. With key id `test-key-1` the
token's header segment carries `=` padding from the STANDARD base64 engine,
so the token fails the spec's pattern
`^[A-Za-z0-9_-]+\.\.[A-Za-z0-9_-]+$` (the code's own comment claims
`base64url(header)`). -/
theorem sign_token_not_base64url :
    matchesDetachedB64url (sampleSigner.sign "\x7b\x7d") = false ∧
    '=' ∈ (splitChar '.' (sampleSigner.sign "\x7b\x7d").data).getD 0 [] :=
  ⟨rfl, by decide⟩

/-- C3: `verify` is a placeholder that reports success for any structurally
valid token without checking the signature: verifying the token signed over
payload `A` against the different payload `B` yields `Ok(true)`, not
`false`. -/
theorem verify_accepts_wrong_payload :
    sampleSigner.verify (sampleSigner.sign "A") "B" = .ok true ∧ "A" ≠ "B" :=
  ⟨rfl, by decide⟩

/-- C4: `verify` fails with the format error (`FormatError` of the spec's
taxonomy, the `Invalid JWS format` crypto error of the code) exactly when the
input does not have exactly two dot separators with an empty middle
segment. -/
theorem verify_format_error_iff (s : JwsSigner) (jws payload : String) :
    s.verify jws payload = .error (.Crypto "Invalid JWS format") ↔
      ¬ (jws.data.count '.' = 2 ∧ (splitChar '.' jws.data).getD 1 [] = []) := by
  have hlen := splitChar_length '.' jws.data
  by_cases hc : (splitChar '.' jws.data).length ≠ 3 ∨ (splitChar '.' jws.data).getD 1 [] ≠ []
  · refine iff_of_true ?_ ?_
    · simp only [JwsSigner.verify]
      rw [if_pos hc]
    · rintro ⟨h2, hmid⟩
      rcases hc with h3 | hm
      · exact h3 (by omega)
      · exact hm hmid
  · push_neg at hc
    obtain ⟨h3, hmid⟩ := hc
    refine iff_of_false ?_ ?_
    · simp only [JwsSigner.verify]
      rw [if_neg (not_or.mpr ⟨not_not_intro h3, not_not_intro hmid⟩)]
      cases hdec : b64DecodeList ((splitChar '.' jws.data).getD 2 []) with
      | none =>
          simp only [hdec]
          intro h
          injection h with h1
          injection h1 with h2
          exact absurd h2 (by decide)
      | some sig =>
          simp only [hdec]
          intro h
          injection h
    · intro hnot
      exact hnot ⟨by omega, hmid⟩

/-- C5: the first token segment is standard base64 (with `=` padding) of the
header JSON, not unpadded base64url as the spec's decode step requires; after
standard base64 decoding it is exactly the documented header object in the
documented field order `alg, kid, b64, crit` (order modelled from the spec,
see `headerJson`). -/
theorem sign_header_segment_standard_base64 :
    b64DecodeList ((splitChar '.' (sampleSigner.sign "\x7b\x7d").data).getD 0 []) =
      some (utf8Bytes (headerJson "test-key-1")) ∧
    headerJson "test-key-1" =
      "\x7b\"alg\":\"RS256\",\"kid\":\"test-key-1\",\"b64\":false,\"crit\":[\"b64\"]\x7d" ∧
    '=' ∈ (splitChar '.' (sampleSigner.sign "\x7b\x7d").data).getD 0 [] :=
  ⟨rfl, rfl, by decide⟩

/-- C6: `sign_payload` fails with the configuration error when no JWS signer
is configured, and returns exactly `signer.sign(payload)` when one is; the
two cases are exhaustive, so there is no unsigned code path. -/
theorem sign_payload_signer_cases (c : PolishApiClient) (payload : String) :
    (c.jws_signer = none →
      c.sign_payload payload = .error (.Config "JWS signer not configured")) ∧
    (∀ s : JwsSigner, c.jws_signer = some s →
      c.sign_payload payload = .ok (s.sign payload)) := by
  constructor
  · intro h
    simp only [PolishApiClient.sign_payload, h]
  · intro s h
    simp only [PolishApiClient.sign_payload, h]

/-- Witness for C6: a client constructed without a signer fails with the
configuration error. -/
theorem sign_payload_signer_cases_witness :
    (PolishApiClient.mk none).sign_payload "x" =
      .error (.Config "JWS signer not configured") :=
  (sign_payload_signer_cases ⟨none⟩ "x").1 rfl

/-- C7: constructing a signer from PEM text, for any DER loader that rejects
the empty blob: a missing `-----BEGIN` line leaves the collected body empty,
so construction fails in the DER key loader with the `Invalid private key`
error; an invalid-base64 body fails with the `Invalid PEM encoding` error; a
successfully decoded body is passed to the DER loader unchanged; and lines
after the first `-----END` line never influence the collected body. -/
theorem from_pem_key_format (fromDer : List UInt8 → Option RsaKeyPair)
    (h0 : fromDer [] = none) :
    (∀ pem kid, ((rustLines pem).all fun l => !(rustStartsWith l "-----BEGIN")) = true →
        JwsSigner.from_pem fromDer pem kid = .error (.Crypto "Invalid private key")) ∧
    (∀ pem kid,
        b64DecodeList ((pemCollect false (rustLines pem)).map String.data).flatten = none →
        JwsSigner.from_pem fromDer pem kid = .error (.Crypto "Invalid PEM encoding")) ∧
    (∀ pem kid der, JwsSigner.pem_to_der pem = .ok der →
        JwsSigner.from_pem fromDer pem kid = JwsSigner.new fromDer der kid) ∧
    (∀ (b : Bool) ls1 ls2, (ls1.any fun l => rustStartsWith l "-----END") = true →
        pemCollect b (ls1 ++ ls2) = pemCollect b ls1) := by
  refine ⟨?_, ?_, ?_, pemCollect_append_stops_at_end⟩
  · intro pem kid h
    have hcoll := pemCollect_no_begin (rustLines pem) h
    have hder : JwsSigner.pem_to_der pem = .ok [] := by
      simp only [JwsSigner.pem_to_der, hcoll]
      rfl
    simp only [JwsSigner.from_pem, hder, JwsSigner.new, h0]
  · intro pem kid hdec
    simp only [JwsSigner.from_pem, JwsSigner.pem_to_der, hdec]
  · intro pem kid der hder
    simp only [JwsSigner.from_pem, hder]

/-- Witness for C7: with the DER loader that rejects everything, PEM text
with no `-----BEGIN` line fails with the `Invalid private key` error. -/
theorem from_pem_key_format_witness :
    (fun (_ : List UInt8) => (none : Option RsaKeyPair)) [] = none ∧
    JwsSigner.from_pem (fun _ => none) "hello" "k" =
      .error (.Crypto "Invalid private key") :=
  ⟨rfl, (from_pem_key_format (fun _ => none) rfl).1 "hello" "k" (by decide)⟩

/-- C8: the signature buffer is allocated with exactly the RSA modulus
length before signing, so the decoded signature segment of every token has
exactly `modulus_len` bytes (256 bytes for a 2048-bit key). -/
theorem sign_signature_length (s : JwsSigner) (payload : String) :
    ∃ sig : List UInt8,
      b64DecodeList ((splitChar '.' (s.sign payload).data).getD 2 []) = some sig ∧
      sig.length = s.key_pair.modulus_len := by
  refine ⟨fillBuffer (List.replicate s.key_pair.modulus_len 0)
      (ringSign s.key_pair 0 (utf8Bytes (headerB64 s.key_id ++ "." ++ payload))), ?_, ?_⟩
  · have hsp := splitChar_signWithRng s 0 payload
    show b64DecodeList ((splitChar '.' (s.signWithRng 0 payload).data).getD 2 []) = _
    rw [hsp]
    exact b64_decode_encode _
  · rw [fillBuffer_length, List.length_replicate]

/-- C9: signing is deterministic in the per-call random source: the token
depends only on the key material and the payload, so two calls with any two
rng seeds produce the same string. -/
theorem sign_independent_of_rng (s : JwsSigner) (payload : String) (r1 r2 : Nat) :
    s.signWithRng r1 payload = s.signWithRng r2 payload := rfl

/-- C10: `validate_iban` is not total: the all-CJK input below passes the
byte-length check (15 bytes) and the alphanumeric check, and then the byte
slice `&iban[0..2]` panics because byte index 2 falls inside the first
three-byte character. -/
theorem validate_iban_panics_on_multibyte :
    validate_iban "従従従従従" = none ∧
    (utf8Bytes "従従従従従").length = 15 ∧
    "従従従従従".data.all rustIsAlphanumeric = true :=
  ⟨rfl, rfl, rfl⟩

end PolishApi
